import Mathlib

/-!
Shallow embedding of the async-graphql OpenTelemetry extension
(src/lib.rs and src/types.rs): the per-request telemetry state machine.

Timestamps (`chrono::DateTime<Utc>`) are modelled as `Int` nanoseconds.
Tracing spans are opaque handles supplied by an external backend; we model
them as `Nat` identifiers allocated by a `World` that also records, as
observable logs, every span creation (with its parent), every span
enter/exit, and every metric emission made through the process-wide
instruments `HTTP_REQUESTS`, `HTTP_REQUESTS_ERRORS` and
`HTTP_REQUEST_DURATION`.
-/

namespace AGOtel

/-- Kinds of spans the extension creates (request root, the three phase
spans, and per-field resolver spans). -/
inductive SpanKind where
  | root
  | parse
  | validation
  | execute
  | field
deriving DecidableEq

/-- Record of one span creation: the allocated id, the parent span id
passed at creation (`parent: ...` in the `span!` macro), and the kind. -/
structure SpanRec where
  sid : Nat
  parent : Option Nat
  kind : SpanKind
deriving DecidableEq

/-- One subscriber action: `d.enter(id)` or `d.exit(id)` on a span. -/
inductive SpanAction where
  | enter (sid : Nat)
  | exit (sid : Nat)
deriving DecidableEq

/-- The world outside the extension: the tracing subscriber (span ids,
the set of entered-but-not-exited spans, the enter/exit log) and the three
process-wide metric instruments, each modelled as the list of emissions
made on it (labels are the (query, root) pair; the duration recorder also
stores the recorded millisecond value as an exact rational). -/
structure World where
  nextSpanId : Nat
  openSpans : List Nat
  created : List SpanRec
  log : List SpanAction
  http_requests : List (String × String)
  http_request_errors : List (String × String)
  http_request_duration : List (ℚ × String × String)
deriving DecidableEq

def World.start : World := ⟨0, [], [], [], [], [], []⟩

/-- Allocate a fresh span (the `span!` macro): returns its id. -/
def World.newSpan (w : World) (parent : Option Nat) (k : SpanKind) : Nat × World :=
  (w.nextSpanId,
   { w with
     nextSpanId := w.nextSpanId + 1,
     created := w.created ++ [⟨w.nextSpanId, parent, k⟩] })

/-- `span.with_subscriber(|(id, d)| d.enter(id))`. -/
def World.enterSpan (w : World) (sid : Nat) : World :=
  { w with openSpans := sid :: w.openSpans, log := w.log ++ [SpanAction.enter sid] }

/-- `span.with_subscriber(|(id, d)| d.exit(id))`. -/
def World.exitSpan (w : World) (sid : Nat) : World :=
  { w with openSpans := w.openSpans.erase sid, log := w.log ++ [SpanAction.exit sid] }

/-- types.rs `PendingResolve`. -/
structure PendingResolve where
  path : List String
  field_name : String
  parent_type : String
  return_type : String
  start_time : Int
deriving DecidableEq

/-- types.rs `ResolveStat`. -/
structure ResolveStat where
  pending_resolve : PendingResolve
  end_time : Int
  start_offset : Int
deriving DecidableEq

/-- types.rs `Metrics`. -/
structure Metrics where
  start_time : Int
  end_time : Int
  resolves : List ResolveStat
deriving DecidableEq

/-- types.rs `Traces` (the four optional phase span handles). -/
structure Traces where
  root : Option Nat
  parse : Option Nat
  validation : Option Nat
  execute : Option Nat
deriving DecidableEq

/-- types.rs `TelemetryData`: the open field span plus its pending metrics. -/
structure TelemetryData where
  span : Nat
  metrics : PendingResolve
deriving DecidableEq

/-- Models async_graphql's `QueryPathNode` (external collaborator): a
materialized field path as its list of segment strings.
`to_string` joins the segments with dots. -/
def pathToString (p : List String) : String := String.intercalate "." p

/-- Models `QueryPathNode::field_name` (external): the final segment. -/
def fieldNameOf (p : List String) : String := p.getLastD ""

/-- types.rs `TelemetryData::new`: captures `to_string_vec`, `field_name`
and `start_time = Utc::now()` at field-resolution start. -/
def TelemetryData.new (span : Nat) (path_node : List String)
    (parent_type return_type : String) (now : Int) : TelemetryData :=
  { span := span,
    metrics :=
      { path := path_node,
        field_name := fieldNameOf path_node,
        parent_type := parent_type,
        return_type := return_type,
        start_time := now } }

/-- types.rs `OpenTelemetry`: the extension instance state.  The
`BTreeMap<usize, TelemetryData>` is modelled as an association list kept
sorted by key (matching the map's key order). -/
structure OpenTelemetry where
  metrics : Metrics
  traces : Traces
  fields : List (Nat × TelemetryData)
  query_name : Option String
  query_root : Option String
deriving DecidableEq

/-- types.rs `OpenTelemetryConfig` (request-scoped configuration). -/
structure OpenTelemetryConfig where
  parent : Option Nat
  return_tracing_data_to_client : Bool
deriving DecidableEq

/-- types.rs `impl Default for OpenTelemetryConfig`. -/
def OpenTelemetryConfig.default : OpenTelemetryConfig :=
  { parent := none, return_tracing_data_to_client := true }

/-- types.rs `ExtensionFactory::create`: both timestamps are sampled with
`Utc::now()` when the extension instance is created (`t1` for
`start_time`, `t2` for `end_time`). -/
def create (t1 t2 : Int) : OpenTelemetry :=
  { metrics := { start_time := t1, end_time := t2, resolves := [] },
    traces := ⟨none, none, none, none⟩,
    fields := [],
    query_name := none,
    query_root := none }

/-- `BTreeMap::get`. -/
def btreeGet (k : Nat) : List (Nat × TelemetryData) → Option TelemetryData
  | [] => none
  | (k1, v) :: rest => if k = k1 then some v else btreeGet k rest

/-- `BTreeMap::insert` (key-sorted insert, replacing an equal key). -/
def btreeInsert (k : Nat) (v : TelemetryData) :
    List (Nat × TelemetryData) → List (Nat × TelemetryData)
  | [] => [(k, v)]
  | (k1, v1) :: rest =>
    if k < k1 then (k, v) :: (k1, v1) :: rest
    else if k = k1 then (k, v) :: rest
    else (k1, v1) :: btreeInsert k v rest

/-- `BTreeMap::remove` (the removed value, when present, is what
`btreeGet` returned). -/
def btreeRemove (k : Nat) (l : List (Nat × TelemetryData)) :
    List (Nat × TelemetryData) :=
  l.filter (fun p => p.1 != k)

/-- chrono `Duration::num_nanoseconds`: `none` exactly when the
nanosecond count does not fit a signed 64-bit integer (where the source
calls `.unwrap()` / `.expect(..)`, a `none` here is the panic). -/
def numNanoseconds (d : Int) : Option Int :=
  if -(2 ^ 63) ≤ d ∧ d ≤ 2 ^ 63 - 1 then some d else none

/-- lib.rs `prepare_request`: creates the root span, parented to
`cfg.parent` when a request-scoped config supplies one, enters it and
stores it in `traces.root`. -/
def prepare_request (cfg : Option OpenTelemetryConfig) (st : OpenTelemetry)
    (w : World) : OpenTelemetry × World :=
  let parent_span := cfg.bind (fun c => c.parent)
  let a := w.newSpan parent_span SpanKind.root
  let w1 := (a.2).enterSpan a.1
  ({ st with traces := { st.traces with root := some a.1 } }, w1)

/-- lib.rs `parse_start`: only when a root span exists, opens and enters
the parse span and samples `metrics.start_time = Utc::now()`. -/
def parse_start (st : OpenTelemetry) (w : World) (now : Int) :
    OpenTelemetry × World :=
  match st.traces.root with
  | some root =>
    let a := w.newSpan (some root) SpanKind.parse
    let w1 := (a.2).enterSpan a.1
    ({ st with
       traces := { st.traces with parse := some a.1 },
       metrics := { st.metrics with start_time := now } }, w1)
  | none => (st, w)

/-- lib.rs `validation_start`: only when a root span exists, opens and
enters the validation span. -/
def validation_start (st : OpenTelemetry) (w : World) :
    OpenTelemetry × World :=
  match st.traces.root with
  | some root =>
    let a := w.newSpan (some root) SpanKind.validation
    let w1 := (a.2).enterSpan a.1
    ({ st with traces := { st.traces with validation := some a.1 } }, w1)
  | none => (st, w)

/-- lib.rs `parse_end`: `take()` the parse span and exit it if present. -/
def parse_end (st : OpenTelemetry) (w : World) : OpenTelemetry × World :=
  match st.traces.parse with
  | some sid =>
    ({ st with traces := { st.traces with parse := none } }, w.exitSpan sid)
  | none => (st, w)

/-- lib.rs `validation_end`: `take()` the validation span and exit it if
present. -/
def validation_end (st : OpenTelemetry) (w : World) : OpenTelemetry × World :=
  match st.traces.validation with
  | some sid =>
    ({ st with traces := { st.traces with validation := none } }, w.exitSpan sid)
  | none => (st, w)

/-- lib.rs `execution_start`: always opens and enters an execute span,
parented to the root span when one exists (parentless for subscription
stream steps). -/
def execution_start (st : OpenTelemetry) (w : World) : OpenTelemetry × World :=
  let a := w.newSpan st.traces.root SpanKind.execute
  let w1 := (a.2).enterSpan a.1
  ({ st with traces := { st.traces with execute := some a.1 } }, w1)

/-- `Option::take` followed by exit-if-present, as in `execution_end`,
`error` and the unwind tail. -/
def takeExit (sp : Option Nat) (w : World) : World :=
  match sp with
  | some sid => w.exitSpan sid
  | none => w

/-- lib.rs `execution_end`: takes and exits the execute span, then the
root span, and samples `metrics.end_time = Utc::now()`. -/
def execution_end (st : OpenTelemetry) (w : World) (now : Int) :
    OpenTelemetry × World :=
  let w1 := takeExit st.traces.execute w
  let w2 := takeExit st.traces.root w1
  ({ st with
     traces := { st.traces with execute := none, root := none },
     metrics := { st.metrics with end_time := now } }, w2)

/-- Resolve-node identifier (`info.resolve_id`): the current id and the
optional parent id. -/
structure ResolveId where
  current : Nat
  parent : Option Nat
deriving DecidableEq

/-- lib.rs `ResolveInfo` (the fields the extension reads). -/
structure ResolveInfo where
  resolve_id : ResolveId
  path_node : List String
  parent_type : String
  return_type : String
deriving DecidableEq

/-- lib.rs `resolve_start`, parent-span selection: a tracked parent
resolution's span when the parent id is `Some` and positive, otherwise
the execute phase span. -/
def parentSpanChoice (st : OpenTelemetry) (info : ResolveInfo) : Option Nat :=
  match info.resolve_id.parent with
  | some pid =>
    if 0 < pid then (btreeGet pid st.fields).map (fun td => td.span)
    else st.traces.execute
  | none => st.traces.execute

/-- lib.rs `resolve_start`: when a parent span was found, captures
`query_name`/`query_root` if still unset, opens and enters the field
span, and tracks the resolution; otherwise does nothing. -/
def resolve_start (st : OpenTelemetry) (w : World) (info : ResolveInfo)
    (now : Int) : OpenTelemetry × World :=
  match parentSpanChoice st info with
  | some ps =>
    let qn := match st.query_name with
      | none => some (pathToString info.path_node)
      | some q => some q
    let qr := match st.query_root with
      | none => some info.parent_type
      | some q => some q
    let a := w.newSpan (some ps) SpanKind.field
    let w1 := (a.2).enterSpan a.1
    let td := TelemetryData.new a.1 info.path_node info.parent_type
      info.return_type now
    ({ st with
       query_name := qn,
       query_root := qr,
       fields := btreeInsert info.resolve_id.current td st.fields }, w1)
  | none => (st, w)

/-- lib.rs `resolve_end`: if the id is tracked, removes it, exits its
span, computes the start offset (panics — `none` — when it does not fit
an i64) and appends a `ResolveStat` with `end_time = Utc::now()`;
untracked ids are a no-op. -/
def resolve_end (st : OpenTelemetry) (w : World) (rid : Nat) (now : Int) :
    Option (OpenTelemetry × World) :=
  match btreeGet rid st.fields with
  | some td =>
    let w1 := w.exitSpan td.span
    match numNanoseconds (td.metrics.start_time - st.metrics.start_time) with
    | some start_offset =>
      some
        ({ st with
           fields := btreeRemove rid st.fields,
           metrics :=
             { st.metrics with
               resolves := st.metrics.resolves ++
                 [{ pending_resolve := td.metrics,
                    end_time := now,
                    start_offset := start_offset }] } }, w1)
    | none => none
  | none => some (st, w)

/-- Exit every still-tracked field span, in map order (the `for` loop
over `self.fields.iter()` in `error`). -/
def exitFieldSpans (fields : List (Nat × TelemetryData)) (w : World) : World :=
  fields.foldl (fun w p => w.exitSpan p.2.span) w

/-- lib.rs `error`: logs a diagnostic (not modelled), exits and clears
every in-flight field resolution, increments the request counter and the
error counter labeled by `query_name`/`query_root` (empty-string
fallback), then takes and exits execute, validation, parse and root in
that order. -/
def error (st : OpenTelemetry) (w : World) : OpenTelemetry × World :=
  let w1 := exitFieldSpans st.fields w
  let qn := st.query_name.getD ""
  let qr := st.query_root.getD ""
  let w2 := { w1 with http_requests := w1.http_requests ++ [(qn, qr)] }
  let w3 := { w2 with http_request_errors := w2.http_request_errors ++ [(qn, qr)] }
  let w4 := takeExit st.traces.execute w3
  let w5 := takeExit st.traces.validation w4
  let w6 := takeExit st.traces.parse w5
  let w7 := takeExit st.traces.root w6
  ({ st with fields := [], traces := ⟨none, none, none, none⟩ }, w7)

/-- The sort order `result` uses: `a.start_offset.cmp(&b.start_offset)`.
Rust's `sort_by` is a stable sort, modelled by `List.insertionSort`. -/
def statLE (a b : ResolveStat) : Prop := a.start_offset ≤ b.start_offset

instance : DecidableRel statLE :=
  fun a b => inferInstanceAs (Decidable (a.start_offset ≤ b.start_offset))

instance : IsTotal ResolveStat statLE :=
  ⟨fun a b => Int.le_total a.start_offset b.start_offset⟩

instance : IsTrans ResolveStat statLE :=
  ⟨fun _ _ _ hab hbc => le_trans hab hbc⟩

/-- Structured values (the async_graphql `Value` built by the `value!`
macro and serde serialization). -/
inductive Json where
  | null
  | num (n : Int)
  | str (s : String)
  | arr (elems : List Json)
  | obj (members : List (String × Json))

/-- Models chrono's `DateTime::to_rfc3339` (external collaborator): some
string rendering of the timestamp; its exact format is out of scope. -/
def toRfc3339 (t : Int) : String := toString t

/-- types.rs `impl Serialize for ResolveStat`: the entry's `duration` is
`(end_time - start_time).num_nanoseconds()`, an `Option` that serde
serializes as the integer or as null. -/
def serializeResolveStat (r : ResolveStat) : Json :=
  Json.obj
    [("path", Json.arr (r.pending_resolve.path.map Json.str)),
     ("fieldName", Json.str r.pending_resolve.field_name),
     ("parentType", Json.str r.pending_resolve.parent_type),
     ("returnType", Json.str r.pending_resolve.return_type),
     ("startOffset", Json.num r.start_offset),
     ("duration",
      match numNanoseconds (r.end_time - r.pending_resolve.start_time) with
      | some d => Json.num d
      | none => Json.null)]

/-- lib.rs `result`: stable-sorts the resolves by start offset, computes
the request duration (panic — `none` — when it does not fit an i64),
increments the request counter and records the duration in milliseconds
(`request_duration as f64 / 1_000_000.`, modelled as an exact rational),
builds the Apollo-tracing payload, and suppresses it when a supplied
config has `return_tracing_data_to_client = false`. -/
def result (st : OpenTelemetry) (w : World) (cfg : Option OpenTelemetryConfig) :
    Option (Option Json × OpenTelemetry × World) :=
  let sorted := List.insertionSort statLE st.metrics.resolves
  let st1 := { st with metrics := { st.metrics with resolves := sorted } }
  match numNanoseconds (st1.metrics.end_time - st1.metrics.start_time) with
  | none => none
  | some request_duration =>
    let qn := st1.query_name.getD ""
    let qr := st1.query_root.getD ""
    let w1 := { w with http_requests := w.http_requests ++ [(qn, qr)] }
    let w2 :=
      { w1 with
        http_request_duration := w1.http_request_duration ++
          [((request_duration : ℚ) / 1000000, qn, qr)] }
    let payload : Json := Json.obj
      [("version", Json.num 1),
       ("startTime", Json.str (toRfc3339 st1.metrics.start_time)),
       ("endTime", Json.str (toRfc3339 st1.metrics.end_time)),
       ("duration", Json.num request_duration),
       ("execution",
        Json.obj [("resolvers", Json.arr (sorted.map serializeResolveStat))])]
    match cfg with
    | some c =>
      if c.return_tracing_data_to_client then some (some payload, st1, w2)
      else some (none, st1, w2)
    | none => some (some payload, st1, w2)

/-- The lifecycle events the host engine can deliver (each paired with
the wall-clock reading at which it fires). -/
inductive Op where
  | prepare_request
  | parse_start
  | parse_end
  | validation_start
  | validation_end
  | execution_start
  | execution_end
  | resolve_start (info : ResolveInfo)
  | resolve_end (rid : Nat)
  | error
deriving DecidableEq

/-- Dispatch one lifecycle event at clock reading `t`. -/
def step (cfg : Option OpenTelemetryConfig) (t : Int) (op : Op)
    (s : OpenTelemetry × World) : Option (OpenTelemetry × World) :=
  match op with
  | Op.prepare_request => some (prepare_request cfg s.1 s.2)
  | Op.parse_start => some (parse_start s.1 s.2 t)
  | Op.parse_end => some (parse_end s.1 s.2)
  | Op.validation_start => some (validation_start s.1 s.2)
  | Op.validation_end => some (validation_end s.1 s.2)
  | Op.execution_start => some (execution_start s.1 s.2)
  | Op.execution_end => some (execution_end s.1 s.2 t)
  | Op.resolve_start info => some (resolve_start s.1 s.2 info t)
  | Op.resolve_end rid => resolve_end s.1 s.2 rid t
  | Op.error => some (error s.1 s.2)

/-- Process a timestamped event sequence. -/
def run (cfg : Option OpenTelemetryConfig) :
    List (Int × Op) → OpenTelemetry × World → Option (OpenTelemetry × World)
  | [], s => some s
  | e :: rest, s => (step cfg e.1 e.2 s).bind (run cfg rest)

/-! ### Metric instrument names (lib.rs `lazy_static!` block) -/

/-- `meter.u64_counter("graphql_requests")`. -/
def HTTP_REQUESTS_name : String := "graphql_requests"

/-- `meter.f64_value_recorder("graphql_request_duration")`. -/
def HTTP_REQUEST_DURATION_name : String := "graphql_request_duration"

/-- `meter.u64_counter("graphql_request_errors")`. -/
def HTTP_REQUESTS_ERRORS_name : String := "graphql_request_errors"

/-- Every metric instrument the extension creates. -/
def metricNames : List String :=
  [HTTP_REQUESTS_name, HTTP_REQUEST_DURATION_name, HTTP_REQUESTS_ERRORS_name]

/-! ### Derived definitions, invariant predicates and example fixtures -/

/-! ### Concrete example request (the repository's own `basic_test`
query: `getJane` with nested `details.name`) used by the witnesses. -/

def exInfo1 : ResolveInfo :=
  { resolve_id := ⟨1, some 0⟩, path_node := ["getJane"],
    parent_type := "QueryRoot", return_type := "Query" }

def exInfo2 : ResolveInfo :=
  { resolve_id := ⟨2, some 1⟩, path_node := ["getJane", "details", "name"],
    parent_type := "SubQuery", return_type := "String" }

def exEvs : List (Int × Op) :=
  [(0, Op.prepare_request), (1, Op.parse_start), (2, Op.parse_end),
   (3, Op.validation_start), (4, Op.validation_end),
   (5, Op.execution_start),
   (6, Op.resolve_start exInfo1), (7, Op.resolve_start exInfo2),
   (8, Op.resolve_end 2), (9, Op.resolve_end 1),
   (10, Op.execution_end)]

/-- State and world after running the full normal lifecycle above. -/
def exS : OpenTelemetry × World :=
  (run none exEvs (create 0 0, World.start)).getD (create 0 0, World.start)

/-- Witness for C7 at the example request: ending resolve id 1 after it
was already ended leaves the state and world untouched. -/
def c7before : OpenTelemetry × World :=
  (run none
    [(0, Op.prepare_request), (1, Op.parse_start), (5, Op.execution_start),
     (6, Op.resolve_start exInfo1)]
    (create 0 0, World.start)).getD (create 0 0, World.start)

def c7after : OpenTelemetry × World :=
  (resolve_end c7before.1 c7before.2 1 8).getD (c7before.1, c7before.2)

/-- Example state for C5: root and execute spans open (execute has span
id 1), no tracked field resolutions. -/
def c5s : OpenTelemetry × World :=
  (run none [(0, Op.prepare_request), (1, Op.execution_start)]
    (create 0 0, World.start)).getD (create 0 0, World.start)

/-- A resolve whose parent id is positive but was never tracked. -/
def info5 : ResolveInfo :=
  { resolve_id := ⟨9, some 5⟩, path_node := ["a"],
    parent_type := "Q", return_type := "I" }

/-- State after `prepare_request`, `parse_start`, then `error`. -/
def c2s : OpenTelemetry × World :=
  (run none [(0, Op.prepare_request), (1, Op.parse_start), (2, Op.error)]
    (create 0 0, World.start)).getD (create 0 0, World.start)

/-- State with `query_name`/`query_root` captured from the first tracked
resolution (`getJane`, parent type `QueryRoot`). -/
def c6s : OpenTelemetry × World :=
  (run none
    [(0, Op.prepare_request), (1, Op.parse_start), (2, Op.execution_start),
     (3, Op.resolve_start exInfo1)]
    (create 0 0, World.start)).getD (create 0 0, World.start)

/-- Every still-tracked field started at or before `t`, and every
completed stat ends no earlier than it started. -/
def InvDur (st : OpenTelemetry) (t : Int) : Prop :=
  (∀ p ∈ st.fields, p.2.metrics.start_time ≤ t) ∧
  (∀ r ∈ st.metrics.resolves, r.pending_resolve.start_time ≤ r.end_time)

/-- The output of `result` at the example request. -/
def exRes : Option Json × OpenTelemetry × World :=
  (result exS.1 exS.2 none).getD (none, exS.1, exS.2)

def TimesIn (st : OpenTelemetry) (lo hi : Int) : Prop :=
  (lo ≤ st.metrics.start_time ∧ st.metrics.start_time ≤ hi) ∧
  (lo ≤ st.metrics.end_time ∧ st.metrics.end_time ≤ hi) ∧
  (∀ p ∈ st.fields, lo ≤ p.2.metrics.start_time ∧ p.2.metrics.start_time ≤ hi) ∧
  (∀ r ∈ st.metrics.resolves,
    (lo ≤ r.pending_resolve.start_time ∧ r.pending_resolve.start_time ≤ hi) ∧
    (lo ≤ r.end_time ∧ r.end_time ≤ hi))

/-- The shape of one serialized resolver entry: exactly the keys `path`
(an array of strings), `fieldName`, `parentType`, `returnType` (strings),
`startOffset` and `duration` (integers), in this order. -/
def EntryShape (j : Json) : Prop :=
  ∃ (ps : List String) (fn pt rt : String) (so du : Int),
    j = Json.obj
      [("path", Json.arr (List.map Json.str ps)),
       ("fieldName", Json.str fn),
       ("parentType", Json.str pt),
       ("returnType", Json.str rt),
       ("startOffset", Json.num so),
       ("duration", Json.num du)]

/-- Field access on a structured value (serde map lookup by key). -/
def Json.getField (j : Json) (key : String) : Option Json :=
  match j with
  | Json.obj ms => ms.lookup key
  | _ => none

/-- Witness for C10: a run where `parse_start` fires at t = 5 on an
extension created at t = 0 and `execution_end` never fires; the emitted
duration is the negative value -5. -/
def c10s : OpenTelemetry × World :=
  (run none [(0, Op.prepare_request), (5, Op.parse_start)]
    (create 0 0, World.start)).getD (create 0 0, World.start)

/-! ### Helper lemmas -/

theorem takeExit_log (sp : Option Nat) (w : World) :
    (takeExit sp w).log = w.log ++ sp.toList.map SpanAction.exit := by
  cases sp <;> simp [takeExit, World.exitSpan]

theorem takeExit_requests (sp : Option Nat) (w : World) :
    (takeExit sp w).http_requests = w.http_requests := by
  cases sp <;> simp [takeExit, World.exitSpan]

theorem takeExit_errors (sp : Option Nat) (w : World) :
    (takeExit sp w).http_request_errors = w.http_request_errors := by
  cases sp <;> simp [takeExit, World.exitSpan]

theorem takeExit_duration (sp : Option Nat) (w : World) :
    (takeExit sp w).http_request_duration = w.http_request_duration := by
  cases sp <;> simp [takeExit, World.exitSpan]

theorem exitFieldSpans_log (fs : List (Nat × TelemetryData)) (w : World) :
    (exitFieldSpans fs w).log =
      w.log ++ fs.map (fun p => SpanAction.exit p.2.span) := by
  induction fs generalizing w with
  | nil => simp [exitFieldSpans]
  | cons a rest ih =>
    simp only [exitFieldSpans, List.foldl_cons] at *
    rw [ih]
    simp [World.exitSpan]

theorem exitFieldSpans_requests (fs : List (Nat × TelemetryData)) (w : World) :
    (exitFieldSpans fs w).http_requests = w.http_requests := by
  induction fs generalizing w with
  | nil => simp [exitFieldSpans]
  | cons a rest ih =>
    simp only [exitFieldSpans, List.foldl_cons] at *
    rw [ih]
    simp [World.exitSpan]

theorem exitFieldSpans_errors (fs : List (Nat × TelemetryData)) (w : World) :
    (exitFieldSpans fs w).http_request_errors = w.http_request_errors := by
  induction fs generalizing w with
  | nil => simp [exitFieldSpans]
  | cons a rest ih =>
    simp only [exitFieldSpans, List.foldl_cons] at *
    rw [ih]
    simp [World.exitSpan]

theorem exitFieldSpans_duration (fs : List (Nat × TelemetryData)) (w : World) :
    (exitFieldSpans fs w).http_request_duration = w.http_request_duration := by
  induction fs generalizing w with
  | nil => simp [exitFieldSpans]
  | cons a rest ih =>
    simp only [exitFieldSpans, List.foldl_cons] at *
    rw [ih]
    simp [World.exitSpan]

theorem btreeGet_btreeInsert_self (k : Nat) (v : TelemetryData)
    (l : List (Nat × TelemetryData)) :
    btreeGet k (btreeInsert k v l) = some v := by
  induction l with
  | nil => simp [btreeInsert, btreeGet]
  | cons a rest ih =>
    obtain ⟨k1, v1⟩ := a
    by_cases h1 : k < k1
    · simp [btreeInsert, h1, btreeGet]
    · by_cases h2 : k = k1
      · simp [btreeInsert, h1, h2, btreeGet]
      · simp [btreeInsert, h1, h2, btreeGet, ih]

theorem mem_of_btreeGet {k : Nat} {v : TelemetryData}
    {l : List (Nat × TelemetryData)} (h : btreeGet k l = some v) : (k, v) ∈ l := by
  induction l with
  | nil => simp [btreeGet] at h
  | cons a rest ih =>
    obtain ⟨k1, v1⟩ := a
    by_cases h1 : k = k1
    · subst h1
      simp [btreeGet] at h
      subst h
      exact List.mem_cons_self _ _
    · simp [btreeGet, h1] at h
      exact List.mem_cons_of_mem _ (ih h)

theorem btreeGet_btreeRemove_self (k : Nat) (l : List (Nat × TelemetryData)) :
    btreeGet k (btreeRemove k l) = none := by
  induction l with
  | nil => simp [btreeRemove, btreeGet]
  | cons a rest ih =>
    obtain ⟨k1, v1⟩ := a
    by_cases h1 : k1 = k
    · subst h1
      simpa [btreeRemove, btreeGet] using ih
    · have : (k1, v1).1 != k := by simpa using h1
      simp only [btreeRemove, List.filter_cons] at *
      rw [this]
      have h2 : k ≠ k1 := fun hk => h1 hk.symm
      simpa [btreeGet, h2] using ih

theorem mem_btreeInsert {p : Nat × TelemetryData} (k : Nat) (v : TelemetryData)
    (l : List (Nat × TelemetryData)) (h : p ∈ btreeInsert k v l) :
    p = (k, v) ∨ p ∈ l := by
  induction l with
  | nil => simpa [btreeInsert] using h
  | cons a rest ih =>
    obtain ⟨k1, v1⟩ := a
    by_cases h1 : k < k1
    · simp only [btreeInsert, if_pos h1, List.mem_cons] at h
      rcases h with h | h | h
      · exact Or.inl h
      · exact Or.inr (by simp [h])
      · exact Or.inr (List.mem_cons_of_mem _ h)
    · by_cases h2 : k = k1
      · simp only [btreeInsert, if_neg h1, if_pos h2, List.mem_cons] at h
        rcases h with h | h
        · exact Or.inl h
        · exact Or.inr (List.mem_cons_of_mem _ h)
      · simp only [btreeInsert, if_neg h1, if_neg h2, List.mem_cons] at h
        rcases h with h | h
        · exact Or.inr (by simp [h])
        · rcases ih h with h3 | h3
          · exact Or.inl h3
          · exact Or.inr (List.mem_cons_of_mem _ h3)

theorem mem_btreeRemove {p : Nat × TelemetryData} (k : Nat)
    (l : List (Nat × TelemetryData)) (h : p ∈ btreeRemove k l) : p ∈ l :=
  List.mem_of_mem_filter h

/-! ### C1 -/

/-- C1: invoking `error` exits every still-open field-resolution span,
leaves the in-flight `FieldResolution` mapping empty, then closes the
execute, validation, parse and root phase spans in that fixed order
(each a no-op when absent), and increments the request counter and the
error counter exactly once each, labeled by `query_name`/`query_root`. -/
theorem error_unwinds_spans_and_counts_once (st : OpenTelemetry) (w : World) :
    (error st w).1.fields = [] ∧
    (error st w).1.traces = ⟨none, none, none, none⟩ ∧
    (error st w).2.log =
      w.log ++ st.fields.map (fun p => SpanAction.exit p.2.span) ++
        (st.traces.execute.toList ++ st.traces.validation.toList ++
          st.traces.parse.toList ++ st.traces.root.toList).map SpanAction.exit ∧
    (error st w).2.http_requests =
      w.http_requests ++ [(st.query_name.getD "", st.query_root.getD "")] ∧
    (error st w).2.http_request_errors =
      w.http_request_errors ++ [(st.query_name.getD "", st.query_root.getD "")] ∧
    (error st w).2.http_request_duration = w.http_request_duration := by
  refine ⟨rfl, rfl, ?_, ?_, ?_, ?_⟩ <;>
    simp [error, takeExit_log, takeExit_requests, takeExit_errors,
      takeExit_duration, exitFieldSpans_log, exitFieldSpans_requests,
      exitFieldSpans_errors, exitFieldSpans_duration, List.append_assoc]

/-! ### C7 -/

/-- C7: `resolve_end` is idempotent per resolve id: a second call for the
same id (or a call for a never-tracked id) is a no-op that changes
neither the extension state nor the world — no duplicate `ResolveStat`
is appended and no span is exited twice. -/
theorem resolve_end_idempotent (st : OpenTelemetry) (w : World) (rid : Nat)
    (t t2 : Int) (st1 : OpenTelemetry) (w1 : World) :
    (resolve_end st w rid t = some (st1, w1) →
      resolve_end st1 w1 rid t2 = some (st1, w1)) ∧
    (btreeGet rid st.fields = none → resolve_end st w rid t = some (st, w)) := by
  constructor
  · intro h
    have hnone : btreeGet rid st1.fields = none := by
      rcases hget : btreeGet rid st.fields with _ | td
      · simp only [resolve_end, hget, Option.some.injEq, Prod.mk.injEq] at h
        rw [← h.1, hget]
      · simp only [resolve_end, hget] at h
        rcases hnn : numNanoseconds (td.metrics.start_time - st.metrics.start_time)
          with _ | so
        · rw [hnn] at h
          simp at h
        · rw [hnn] at h
          simp only [Option.some.injEq, Prod.mk.injEq] at h
          rw [← h.1]
          exact btreeGet_btreeRemove_self rid st.fields
    simp [resolve_end, hnone]
  · intro h
    simp [resolve_end, h]

theorem resolve_end_idempotent_witness :
    resolve_end c7after.1 c7after.2 1 9 = some (c7after.1, c7after.2) :=
  (resolve_end_idempotent c7before.1 c7before.2 1 8 9 c7after.1 c7after.2).1
    (by decide)

/-! ### C8 -/

/-- C8 counterexample: the error counter is named
`graphql_request_errors`, not `graphql_requests_errors`, and no
`graphql_subscriptions` counter exists anywhere in the extension. -/
theorem metric_names_counterexample :
    "graphql_requests_errors" ∉ metricNames ∧
    "graphql_subscriptions" ∉ metricNames := by decide

/-- C8 amended: the instruments are the counters `graphql_requests` and
`graphql_request_errors` and the value recorder
`graphql_request_duration` (no subscription counter exists), and the
recorded duration value is the nanosecond request duration divided by
one million, i.e. milliseconds as a (rational-exact) floating-point
quantity. -/
theorem metric_names_and_duration_unit (st : OpenTelemetry) (w : World)
    (cfg : Option OpenTelemetryConfig) (pl : Option Json)
    (st1 : OpenTelemetry) (w1 : World)
    (h : result st w cfg = some (pl, st1, w1)) :
    metricNames =
      ["graphql_requests", "graphql_request_duration", "graphql_request_errors"] ∧
    ∃ d, numNanoseconds (st.metrics.end_time - st.metrics.start_time) = some d ∧
      w1.http_request_duration = w.http_request_duration ++
        [((d : ℚ) / 1000000, st.query_name.getD "", st.query_root.getD "")] := by
  refine ⟨rfl, ?_⟩
  rcases hnn : numNanoseconds (st.metrics.end_time - st.metrics.start_time)
    with _ | d
  · simp only [result, hnn] at h
    exact Option.noConfusion h
  · refine ⟨d, rfl, ?_⟩
    rcases cfg with _ | c
    · simp only [result, hnn, Option.some.injEq, Prod.mk.injEq] at h
      rw [← h.2.2]
    · simp only [result, hnn] at h
      by_cases hb : c.return_tracing_data_to_client = true
      · rw [if_pos hb] at h
        simp only [Option.some.injEq, Prod.mk.injEq] at h
        rw [← h.2.2]
      · rw [if_neg hb] at h
        simp only [Option.some.injEq, Prod.mk.injEq] at h
        rw [← h.2.2]

/-- Witness for C8's amended claim at the example request. -/
theorem metric_names_and_duration_unit_witness :
    metricNames =
      ["graphql_requests", "graphql_request_duration", "graphql_request_errors"] ∧
    ∃ d, numNanoseconds (exS.1.metrics.end_time - exS.1.metrics.start_time) =
        some d ∧
      ((result exS.1 exS.2 none).getD (none, exS.1, exS.2)).2.2.http_request_duration =
        exS.2.http_request_duration ++
          [((d : ℚ) / 1000000, exS.1.query_name.getD "", exS.1.query_root.getD "")] :=
  metric_names_and_duration_unit exS.1 exS.2 none
    ((result exS.1 exS.2 none).getD (none, exS.1, exS.2)).1
    ((result exS.1 exS.2 none).getD (none, exS.1, exS.2)).2.1
    ((result exS.1 exS.2 none).getD (none, exS.1, exS.2)).2.2
    rfl

/-! ### C9 -/

/-- C9: with `returnTracingDataToClient = false`, `result` still performs
all recording work — it sorts the `ResolveStat` sequence, increments the
request counter and records the duration — reaching exactly the state and
world the default path reaches, but returns no payload; with the default
configuration (flag true, or no config supplied) the payload is
returned. -/
theorem result_payload_gating (st : OpenTelemetry) (w : World)
    (p : Option Nat) (pl : Option Json) (st1 : OpenTelemetry) (w1 : World)
    (h : result st w none = some (pl, st1, w1)) :
    pl.isSome = true ∧
    result st w (some ⟨p, false⟩) = some (none, st1, w1) ∧
    result st w (some ⟨p, true⟩) = some (pl, st1, w1) ∧
    OpenTelemetryConfig.default.return_tracing_data_to_client = true ∧
    st1.metrics.resolves = List.insertionSort statLE st.metrics.resolves ∧
    w1.http_requests =
      w.http_requests ++ [(st.query_name.getD "", st.query_root.getD "")] ∧
    w1.http_request_duration.length = w.http_request_duration.length + 1 := by
  rcases hnn : numNanoseconds (st.metrics.end_time - st.metrics.start_time)
    with _ | d
  · simp only [result, hnn] at h
    exact Option.noConfusion h
  · simp only [result, hnn, Option.some.injEq, Prod.mk.injEq] at h
    obtain ⟨hpl, hst, hw⟩ := h
    subst hpl hst hw
    refine ⟨rfl, ?_, ?_, rfl, rfl, rfl, by simp⟩ <;>
      simp [result, hnn]

/-- Witness for C9 at the example request. -/
theorem result_payload_gating_witness :
    (((result exS.1 exS.2 none).getD (none, exS.1, exS.2)).1).isSome = true ∧
    result exS.1 exS.2 (some ⟨none, false⟩) =
      some (none, ((result exS.1 exS.2 none).getD (none, exS.1, exS.2)).2.1,
        ((result exS.1 exS.2 none).getD (none, exS.1, exS.2)).2.2) := by
  have h := result_payload_gating exS.1 exS.2 none
    ((result exS.1 exS.2 none).getD (none, exS.1, exS.2)).1
    ((result exS.1 exS.2 none).getD (none, exS.1, exS.2)).2.1
    ((result exS.1 exS.2 none).getD (none, exS.1, exS.2)).2.2
    rfl
  exact ⟨h.1, h.2.1⟩

/-! ### C5 -/

/-- C5 counterexample: with the execute span open (`some 1`) and a
positive parent id 5 that is not in the mapping, `resolve_start` does
not fall back to the execute span — it opens no span and tracks nothing,
leaving state and world untouched, contrary to the claimed
else-the-execute-span chain. -/
theorem resolve_start_counterexample :
    c5s.1.traces.execute = some 1 ∧
    resolve_start c5s.1 c5s.2 info5 3 = (c5s.1, c5s.2) := by decide

/-- C5 amended: the parent span of a new field span is the tracked
parent resolution's span when `parent_resolve_id` is positive and
present; the execute phase span only when `parent_resolve_id` is absent
or zero; when the parent id is positive but untracked the call is
skipped entirely even if the execute span is open, and when the chosen
parent is unavailable no span is opened and the resolution is not
tracked. -/
theorem resolve_start_parent_selection (st : OpenTelemetry) (w : World)
    (info : ResolveInfo) (now : Int) :
    (∀ pid td, info.resolve_id.parent = some pid → 0 < pid →
      btreeGet pid st.fields = some td →
      parentSpanChoice st info = some td.span) ∧
    ((info.resolve_id.parent = none ∨ info.resolve_id.parent = some 0) →
      parentSpanChoice st info = st.traces.execute) ∧
    (∀ pid, info.resolve_id.parent = some pid → 0 < pid →
      btreeGet pid st.fields = none →
      resolve_start st w info now = (st, w)) ∧
    (parentSpanChoice st info = none → resolve_start st w info now = (st, w)) ∧
    (∀ ps, parentSpanChoice st info = some ps →
      (resolve_start st w info now).2.created =
        w.created ++ [⟨w.nextSpanId, some ps, SpanKind.field⟩] ∧
      btreeGet info.resolve_id.current (resolve_start st w info now).1.fields =
        some (TelemetryData.new w.nextSpanId info.path_node info.parent_type
          info.return_type now)) := by
  refine ⟨?_, ?_, ?_, ?_, ?_⟩
  · intro pid td h1 h2 h3
    simp [parentSpanChoice, h1, h2, h3]
  · intro h
    rcases h with h | h <;> simp [parentSpanChoice, h]
  · intro pid h1 h2 h3
    simp [resolve_start, parentSpanChoice, h1, h2, h3]
  · intro h
    simp [resolve_start, h]
  · intro ps h
    simp [resolve_start, h, World.enterSpan, World.newSpan,
      btreeGet_btreeInsert_self, TelemetryData.new]

/-- Witness for C5's amended claim: the skip branch at the concrete
state of the counterexample (positive untracked parent id, execute span
open), and the execute-span branch for a top-level field. -/
theorem resolve_start_parent_selection_witness :
    resolve_start c5s.1 c5s.2 info5 3 = (c5s.1, c5s.2) ∧
    parentSpanChoice c5s.1 exInfo1 = some 1 :=
  ⟨(resolve_start_parent_selection c5s.1 c5s.2 info5 3).2.2.1 5 rfl
      (by decide) (by decide),
   (resolve_start_parent_selection c5s.1 c5s.2 exInfo1 3).2.1
      (Or.inr rfl)⟩

/-! ### C2 -/

/-- C2 counterexample: after `error`, a later `result` is not a harmless
no-op — it increments the request counter again (1 becomes 2 emissions)
and still returns a payload — and a later `execution_start` creates a
fresh span. -/
theorem post_error_result_counterexample :
    c2s.2.http_requests.length = 1 ∧
    ((result c2s.1 c2s.2 none).map (fun r => r.2.2.http_requests.length)) =
      some 2 ∧
    ((result c2s.1 c2s.2 none).map (fun r => r.1.isSome)) = some true ∧
    (execution_start c2s.1 c2s.2).2.created.length = c2s.2.created.length + 1 := by
  decide

/-- C2 amended: after `error`, all phase spans are closed and the
`FieldResolution` mapping is empty, and the subsequent `parse_start`,
`validation_start`, `parse_end`, `validation_end`, `resolve_start` and
`resolve_end` events are harmless no-ops; however, a later
`execution_start` opens a fresh execute span, and a later `result` still
emits metrics and returns the payload (shown in the counterexample). -/
theorem post_error_events_noop (st : OpenTelemetry) (w : World) (t : Int)
    (info : ResolveInfo) (rid : Nat) :
    (error st w).1.traces = ⟨none, none, none, none⟩ ∧
    (error st w).1.fields = [] ∧
    parse_start (error st w).1 (error st w).2 t = error st w ∧
    validation_start (error st w).1 (error st w).2 = error st w ∧
    parse_end (error st w).1 (error st w).2 = error st w ∧
    validation_end (error st w).1 (error st w).2 = error st w ∧
    resolve_start (error st w).1 (error st w).2 info t = error st w ∧
    resolve_end (error st w).1 (error st w).2 rid t = some (error st w) ∧
    (execution_start (error st w).1 (error st w).2).2.nextSpanId =
      (error st w).2.nextSpanId + 1 := by
  have htr : (error st w).1.traces = ⟨none, none, none, none⟩ := rfl
  have hf : (error st w).1.fields = [] := rfl
  refine ⟨htr, hf, ?_, ?_, ?_, ?_, ?_, ?_, ?_⟩
  · simp [parse_start, htr]
  · simp [validation_start, htr]
  · simp [parse_end, htr]
  · simp [validation_end, htr]
  · rcases hp : info.resolve_id.parent with _ | pid <;>
      simp [resolve_start, parentSpanChoice, hp, htr, hf, btreeGet]
  · simp [resolve_end, hf, btreeGet]
  · simp [execution_start, World.newSpan, World.enterSpan]

/-! ### C6 -/

theorem step_query_name_persists (cfg : Option OpenTelemetryConfig) (t : Int)
    (op : Op) (s s' : OpenTelemetry × World) (q : String)
    (h : step cfg t op s = some s') (hq : s.1.query_name = some q) :
    s'.1.query_name = some q := by
  cases op with
  | prepare_request =>
    simp only [step, Option.some.injEq] at h
    rw [← h]; simpa [prepare_request] using hq
  | parse_start =>
    simp only [step, Option.some.injEq] at h
    rw [← h]
    rcases hr : s.1.traces.root with _ | r <;> simp [parse_start, hr, hq]
  | parse_end =>
    simp only [step, Option.some.injEq] at h
    rw [← h]
    rcases hr : s.1.traces.parse with _ | r <;> simp [parse_end, hr, hq]
  | validation_start =>
    simp only [step, Option.some.injEq] at h
    rw [← h]
    rcases hr : s.1.traces.root with _ | r <;> simp [validation_start, hr, hq]
  | validation_end =>
    simp only [step, Option.some.injEq] at h
    rw [← h]
    rcases hr : s.1.traces.validation with _ | r <;> simp [validation_end, hr, hq]
  | execution_start =>
    simp only [step, Option.some.injEq] at h
    rw [← h]; simpa [execution_start] using hq
  | execution_end =>
    simp only [step, Option.some.injEq] at h
    rw [← h]; simpa [execution_end] using hq
  | resolve_start info =>
    simp only [step, Option.some.injEq] at h
    rw [← h]
    rcases hc : parentSpanChoice s.1 info with _ | ps <;>
      simp [resolve_start, hc, hq]
  | resolve_end rid =>
    simp only [step] at h
    rcases hget : btreeGet rid s.1.fields with _ | td
    · simp only [resolve_end, hget, Option.some.injEq] at h
      rw [← h]; exact hq
    · rcases hnn : numNanoseconds (td.metrics.start_time - s.1.metrics.start_time)
        with _ | so
      · simp only [resolve_end, hget, hnn] at h
        exact Option.noConfusion h
      · simp only [resolve_end, hget, hnn, Option.some.injEq] at h
        rw [← h]; exact hq
  | error =>
    simp only [step, Option.some.injEq] at h
    rw [← h]; simpa [error] using hq

theorem step_query_root_persists (cfg : Option OpenTelemetryConfig) (t : Int)
    (op : Op) (s s' : OpenTelemetry × World) (q : String)
    (h : step cfg t op s = some s') (hq : s.1.query_root = some q) :
    s'.1.query_root = some q := by
  cases op with
  | prepare_request =>
    simp only [step, Option.some.injEq] at h
    rw [← h]; simpa [prepare_request] using hq
  | parse_start =>
    simp only [step, Option.some.injEq] at h
    rw [← h]
    rcases hr : s.1.traces.root with _ | r <;> simp [parse_start, hr, hq]
  | parse_end =>
    simp only [step, Option.some.injEq] at h
    rw [← h]
    rcases hr : s.1.traces.parse with _ | r <;> simp [parse_end, hr, hq]
  | validation_start =>
    simp only [step, Option.some.injEq] at h
    rw [← h]
    rcases hr : s.1.traces.root with _ | r <;> simp [validation_start, hr, hq]
  | validation_end =>
    simp only [step, Option.some.injEq] at h
    rw [← h]
    rcases hr : s.1.traces.validation with _ | r <;> simp [validation_end, hr, hq]
  | execution_start =>
    simp only [step, Option.some.injEq] at h
    rw [← h]; simpa [execution_start] using hq
  | execution_end =>
    simp only [step, Option.some.injEq] at h
    rw [← h]; simpa [execution_end] using hq
  | resolve_start info =>
    simp only [step, Option.some.injEq] at h
    rw [← h]
    rcases hc : parentSpanChoice s.1 info with _ | ps <;>
      simp [resolve_start, hc, hq]
  | resolve_end rid =>
    simp only [step] at h
    rcases hget : btreeGet rid s.1.fields with _ | td
    · simp only [resolve_end, hget, Option.some.injEq] at h
      rw [← h]; exact hq
    · rcases hnn : numNanoseconds (td.metrics.start_time - s.1.metrics.start_time)
        with _ | so
      · simp only [resolve_end, hget, hnn] at h
        exact Option.noConfusion h
      · simp only [resolve_end, hget, hnn, Option.some.injEq] at h
        rw [← h]; exact hq
  | error =>
    simp only [step, Option.some.injEq] at h
    rw [← h]; simpa [error] using hq

theorem run_query_persists (cfg : Option OpenTelemetryConfig)
    (evs : List (Int × Op)) : ∀ (s s' : OpenTelemetry × World) (q : String),
    run cfg evs s = some s' →
    (s.1.query_name = some q → s'.1.query_name = some q) ∧
    (s.1.query_root = some q → s'.1.query_root = some q) := by
  induction evs with
  | nil =>
    intro s s' q h
    simp only [run, Option.some.injEq] at h
    rw [← h]
    exact ⟨fun hq => hq, fun hq => hq⟩
  | cons e rest ih =>
    intro s s' q h
    rcases hstep : step cfg e.1 e.2 s with _ | s1
    · rw [run, hstep] at h
      exact Option.noConfusion h
    · rw [run, hstep] at h
      constructor
      · intro hq
        exact (ih s1 s' q h).1 (step_query_name_persists cfg e.1 e.2 s s1 q hstep hq)
      · intro hq
        exact (ih s1 s' q h).2 (step_query_root_persists cfg e.1 e.2 s s1 q hstep hq)

/-- C6: `query_name` and `query_root` are captured from the very first
tracked field resolution (the field's rendered path and its parent type
name), are never overwritten by any later lifecycle event, and are the
labels of every metric emission for the request — the request counter
and duration recording in `result` and both counters on the error
path. -/
theorem query_identity_set_once_and_labels :
    (∀ (cfg : Option OpenTelemetryConfig) (evs : List (Int × Op))
       (s s' : OpenTelemetry × World) (q : String), run cfg evs s = some s' →
       s.1.query_name = some q → s'.1.query_name = some q) ∧
    (∀ (cfg : Option OpenTelemetryConfig) (evs : List (Int × Op))
       (s s' : OpenTelemetry × World) (q : String), run cfg evs s = some s' →
       s.1.query_root = some q → s'.1.query_root = some q) ∧
    (∀ (st : OpenTelemetry) (w : World) (info : ResolveInfo) (now : Int)
       (ps : Nat), st.query_name = none → st.query_root = none →
       parentSpanChoice st info = some ps →
       (resolve_start st w info now).1.query_name =
         some (pathToString info.path_node) ∧
       (resolve_start st w info now).1.query_root = some info.parent_type) ∧
    (∀ (st : OpenTelemetry) (w : World),
       (error st w).2.http_requests =
         w.http_requests ++ [(st.query_name.getD "", st.query_root.getD "")] ∧
       (error st w).2.http_request_errors =
         w.http_request_errors ++ [(st.query_name.getD "", st.query_root.getD "")]) ∧
    (∀ (st : OpenTelemetry) (w : World) (cfg : Option OpenTelemetryConfig)
       (pl : Option Json) (st1 : OpenTelemetry) (w1 : World),
       result st w cfg = some (pl, st1, w1) →
       w1.http_requests =
         w.http_requests ++ [(st.query_name.getD "", st.query_root.getD "")] ∧
       ∃ d : ℚ, w1.http_request_duration = w.http_request_duration ++
         [(d, st.query_name.getD "", st.query_root.getD "")]) := by
  refine ⟨?_, ?_, ?_, ?_, ?_⟩
  · intro cfg evs s s' q h hq
    exact (run_query_persists cfg evs s s' q h).1 hq
  · intro cfg evs s s' q h hq
    exact (run_query_persists cfg evs s s' q h).2 hq
  · intro st w info now ps hn hr hc
    constructor <;> simp [resolve_start, hc, hn, hr]
  · intro st w
    constructor <;>
      simp [error, takeExit_requests, takeExit_errors,
        exitFieldSpans_requests, exitFieldSpans_errors]
  · intro st w cfg pl st1 w1 h
    rcases hnn : numNanoseconds (st.metrics.end_time - st.metrics.start_time)
      with _ | d
    · simp only [result, hnn] at h
      exact Option.noConfusion h
    · have hw : w1 = { w with
        http_requests :=
          w.http_requests ++ [(st.query_name.getD "", st.query_root.getD "")],
        http_request_duration := w.http_request_duration ++
          [((d : ℚ) / 1000000, st.query_name.getD "", st.query_root.getD "")] } := by
        rcases cfg with _ | c
        · simp only [result, hnn, Option.some.injEq, Prod.mk.injEq] at h
          rw [← h.2.2]
        · simp only [result, hnn] at h
          by_cases hb : c.return_tracing_data_to_client = true
          · rw [if_pos hb] at h
            simp only [Option.some.injEq, Prod.mk.injEq] at h
            rw [← h.2.2]
          · rw [if_neg hb] at h
            simp only [Option.some.injEq, Prod.mk.injEq] at h
            rw [← h.2.2]
      subst hw
      exact ⟨rfl, (d : ℚ) / 1000000, rfl⟩

/-- Witness for C6: resolving the second field does not overwrite
`query_name`, and the error-path counters carry the captured labels. -/
theorem query_identity_witness :
    ((run none [(4, Op.resolve_start exInfo2)] c6s).getD c6s).1.query_name =
      some "getJane" ∧
    (error c6s.1 c6s.2).2.http_requests =
      c6s.2.http_requests ++ [("getJane", "QueryRoot")] :=
  ⟨query_identity_set_once_and_labels.1 none [(4, Op.resolve_start exInfo2)]
      c6s ((run none [(4, Op.resolve_start exInfo2)] c6s).getD c6s) "getJane"
      rfl (by decide),
   (query_identity_set_once_and_labels.2.2.2.1 c6s.1 c6s.2).1⟩

/-! ### Clock-monotonicity invariant machinery -/

theorem invDur_mono {st : OpenTelemetry} {t0 t : Int} (h : InvDur st t0)
    (hle : t0 ≤ t) : InvDur st t :=
  ⟨fun p hp => le_trans (h.1 p hp) hle, h.2⟩

theorem invDur_of_eq {st st' : OpenTelemetry} {t : Int}
    (h1 : st'.fields = st.fields)
    (h2 : st'.metrics.resolves = st.metrics.resolves)
    (h : InvDur st t) : InvDur st' t := by
  constructor
  · rw [h1]; exact h.1
  · rw [h2]; exact h.2

theorem step_invDur (cfg : Option OpenTelemetryConfig) (t0 t : Int) (op : Op)
    (s s' : OpenTelemetry × World) (h : step cfg t op s = some s')
    (hle : t0 ≤ t) (hinv : InvDur s.1 t0) : InvDur s'.1 t := by
  have hmono : InvDur s.1 t := invDur_mono hinv hle
  cases op with
  | prepare_request =>
    simp only [step, Option.some.injEq] at h
    exact invDur_of_eq (by rw [← h]; rfl) (by rw [← h]; rfl) hmono
  | parse_start =>
    simp only [step, Option.some.injEq] at h
    rcases hr : s.1.traces.root with _ | r
    all_goals
      rw [← h]
      exact invDur_of_eq (by simp [parse_start, hr]) (by simp [parse_start, hr])
        hmono
  | parse_end =>
    simp only [step, Option.some.injEq] at h
    rcases hr : s.1.traces.parse with _ | r
    all_goals
      rw [← h]
      exact invDur_of_eq (by simp [parse_end, hr]) (by simp [parse_end, hr])
        hmono
  | validation_start =>
    simp only [step, Option.some.injEq] at h
    rcases hr : s.1.traces.root with _ | r
    all_goals
      rw [← h]
      exact invDur_of_eq (by simp [validation_start, hr])
        (by simp [validation_start, hr]) hmono
  | validation_end =>
    simp only [step, Option.some.injEq] at h
    rcases hr : s.1.traces.validation with _ | r
    all_goals
      rw [← h]
      exact invDur_of_eq (by simp [validation_end, hr])
        (by simp [validation_end, hr]) hmono
  | execution_start =>
    simp only [step, Option.some.injEq] at h
    exact invDur_of_eq (by rw [← h]; rfl) (by rw [← h]; rfl) hmono
  | execution_end =>
    simp only [step, Option.some.injEq] at h
    exact invDur_of_eq (by rw [← h]; rfl) (by rw [← h]; rfl) hmono
  | resolve_start info =>
    simp only [step, Option.some.injEq] at h
    rcases hc : parentSpanChoice s.1 info with _ | ps
    · rw [← h]
      exact invDur_of_eq (by simp [resolve_start, hc]) (by simp [resolve_start, hc])
        hmono
    · rw [← h]
      constructor
      · intro p hp
        simp only [resolve_start, hc] at hp
        rcases mem_btreeInsert _ _ _ hp with hnew | hold
        · rw [hnew]
          exact le_refl t
        · exact hmono.1 p hold
      · intro r hr
        simp only [resolve_start, hc] at hr
        exact hmono.2 r hr
  | resolve_end rid =>
    simp only [step] at h
    rcases hget : btreeGet rid s.1.fields with _ | td
    · simp only [resolve_end, hget, Option.some.injEq] at h
      exact invDur_of_eq (by rw [← h]) (by rw [← h]) hmono
    · rcases hnn : numNanoseconds (td.metrics.start_time - s.1.metrics.start_time)
        with _ | so
      · simp only [resolve_end, hget, hnn] at h
        exact Option.noConfusion h
      · simp only [resolve_end, hget, hnn, Option.some.injEq] at h
        rw [← h]
        constructor
        · intro p hp
          exact hmono.1 p (mem_btreeRemove rid _ hp)
        · intro r hr
          simp only [List.mem_append, List.mem_singleton] at hr
          rcases hr with hr | hr
          · exact hmono.2 r hr
          · rw [hr]
            exact hmono.1 (rid, td) (mem_of_btreeGet hget)
  | error =>
    simp only [step, Option.some.injEq] at h
    rw [← h]
    constructor
    · intro p hp
      simp only [error] at hp
      exact absurd hp (List.not_mem_nil p)
    · intro r hr
      simp only [error] at hr
      exact hmono.2 r hr

theorem run_invDur (cfg : Option OpenTelemetryConfig) :
    ∀ (evs : List (Int × Op)) (t0 : Int) (s s' : OpenTelemetry × World),
    List.Chain' (fun a b => a ≤ b) (t0 :: evs.map Prod.fst) →
    InvDur s.1 t0 → run cfg evs s = some s' →
    InvDur s'.1 ((evs.map Prod.fst).getLastD t0) := by
  intro evs
  induction evs with
  | nil =>
    intro t0 s s' _ hinv h
    simp only [run, Option.some.injEq] at h
    rw [← h]
    exact hinv
  | cons e rest ih =>
    intro t0 s s' hchain hinv h
    rcases hstep : step cfg e.1 e.2 s with _ | s1
    · rw [run, hstep] at h
      exact Option.noConfusion h
    · rw [run, hstep] at h
      simp only [List.map_cons, List.chain'_cons] at hchain
      have hinv1 : InvDur s1.1 e.1 :=
        step_invDur cfg t0 e.1 e.2 s s1 hstep hchain.1 hinv
      have hrec := ih e.1 s1 s' hchain.2 hinv1 h
      rw [List.map_cons, List.getLastD_cons]
      exact hrec

/-! ### Stability of the `result` sort -/

theorem filter_orderedInsert (k : Int) (a : ResolveStat) (l : List ResolveStat) :
    (List.orderedInsert statLE a l).filter (fun r => r.start_offset == k) =
      if a.start_offset == k
      then a :: l.filter (fun r => r.start_offset == k)
      else l.filter (fun r => r.start_offset == k) := by
  induction l with
  | nil =>
    by_cases ha : (a.start_offset == k) = true <;>
      simp [List.orderedInsert, List.filter, ha]
  | cons b bs ih =>
    by_cases hab : statLE a b
    · by_cases ha : (a.start_offset == k) = true <;>
        simp [List.orderedInsert, hab, List.filter_cons, ha]
    · simp only [List.orderedInsert, if_neg hab, List.filter_cons]
      by_cases hb : (b.start_offset == k) = true
      · have hbk : b.start_offset = k := by simpa using hb
        have ha : ¬ (a.start_offset == k) = true := by
          simp only [beq_iff_eq]
          intro hak
          exact hab (le_of_eq (hak.trans hbk.symm))
        simp [hb, ih, ha]
      · simp [hb, ih]

theorem filter_insertionSort (k : Int) (l : List ResolveStat) :
    (List.insertionSort statLE l).filter (fun r => r.start_offset == k) =
      l.filter (fun r => r.start_offset == k) := by
  induction l with
  | nil => rfl
  | cons a as ih =>
    simp only [List.insertionSort, filter_orderedInsert, ih, List.filter_cons]

/-- Shared characterization: `result` replaces the resolves with their
stable sort by start offset. -/
theorem result_resolves (st : OpenTelemetry) (w : World)
    (cfg : Option OpenTelemetryConfig) (pl : Option Json)
    (st1 : OpenTelemetry) (w1 : World)
    (h : result st w cfg = some (pl, st1, w1)) :
    st1.metrics.resolves = List.insertionSort statLE st.metrics.resolves := by
  rcases hnn : numNanoseconds (st.metrics.end_time - st.metrics.start_time)
    with _ | d
  · simp only [result, hnn] at h
    exact Option.noConfusion h
  · rcases cfg with _ | c
    · simp only [result, hnn, Option.some.injEq, Prod.mk.injEq] at h
      rw [← h.2.1]
    · simp only [result, hnn] at h
      by_cases hb : c.return_tracing_data_to_client = true
      · rw [if_pos hb] at h
        simp only [Option.some.injEq, Prod.mk.injEq] at h
        rw [← h.2.1]
      · rw [if_neg hb] at h
        simp only [Option.some.injEq, Prod.mk.injEq] at h
        rw [← h.2.1]

/-! ### C3 -/

/-- C3: for every request that completes normally (any monotonically
clocked event sequence followed by `result`), the produced resolvers
sequence is sorted ascending by `startOffset` via a stable sort (the
elements at any fixed `startOffset` keep their insertion order), and
every entry satisfies `startOffset <= startOffset + duration` (duration
is non-negative). -/
theorem result_resolvers_sorted_stable_nonneg
    (cfg cfg2 : Option OpenTelemetryConfig) (evs : List (Int × Op))
    (t0 t1 t2 : Int) (st : OpenTelemetry) (w : World) (pl : Option Json)
    (st1 : OpenTelemetry) (w1 : World)
    (hchain : List.Chain' (fun a b => a ≤ b) (t0 :: evs.map Prod.fst))
    (hrun : run cfg evs (create t1 t2, World.start) = some (st, w))
    (hres : result st w cfg2 = some (pl, st1, w1)) :
    List.Sorted statLE st1.metrics.resolves ∧
    (∀ r ∈ st1.metrics.resolves,
      r.start_offset ≤ r.start_offset + (r.end_time - r.pending_resolve.start_time)) ∧
    (∀ k : Int, st1.metrics.resolves.filter (fun r => r.start_offset == k) =
      st.metrics.resolves.filter (fun r => r.start_offset == k)) := by
  have hsorted := result_resolves st w cfg2 pl st1 w1 hres
  have hinv0 : InvDur (create t1 t2) t0 := by
    constructor
    · intro p hp
      exact absurd hp (List.not_mem_nil p)
    · intro r hr
      exact absurd hr (List.not_mem_nil r)
  have hinv := run_invDur cfg evs t0 (create t1 t2, World.start) (st, w)
    hchain hinv0 hrun
  refine ⟨?_, ?_, ?_⟩
  · rw [hsorted]
    exact List.sorted_insertionSort statLE st.metrics.resolves
  · intro r hr
    rw [hsorted] at hr
    have hmem : r ∈ st.metrics.resolves :=
      (List.perm_insertionSort statLE st.metrics.resolves).mem_iff.mp hr
    have := hinv.2 r hmem
    linarith
  · intro k
    rw [hsorted]
    exact filter_insertionSort k st.metrics.resolves

/-- Witness for C3 at the example request (clock 0,1,...,10). -/
theorem result_resolvers_sorted_stable_nonneg_witness :
    List.Chain' (fun a b : Int => a ≤ b) (0 :: exEvs.map Prod.fst) ∧
    List.Sorted statLE exRes.2.1.metrics.resolves ∧
    (∀ r ∈ exRes.2.1.metrics.resolves,
      r.start_offset ≤ r.start_offset + (r.end_time - r.pending_resolve.start_time)) :=
  ⟨by norm_num [exEvs, List.chain'_cons],
   (result_resolvers_sorted_stable_nonneg none none exEvs 0 0 0 exS.1 exS.2
      exRes.1 exRes.2.1 exRes.2.2 (by norm_num [exEvs, List.chain'_cons])
      rfl rfl).1,
   (result_resolvers_sorted_stable_nonneg none none exEvs 0 0 0 exS.1 exS.2
      exRes.1 exRes.2.1 exRes.2.2 (by norm_num [exEvs, List.chain'_cons])
      rfl rfl).2.1⟩

/-! ### Bounded-timestamp invariant (all stored times stay in range) -/

theorem timesIn_of_eq {st st' : OpenTelemetry} {lo hi : Int}
    (h1 : st'.metrics.start_time = st.metrics.start_time)
    (h2 : st'.metrics.end_time = st.metrics.end_time)
    (h3 : st'.fields = st.fields)
    (h4 : st'.metrics.resolves = st.metrics.resolves)
    (h : TimesIn st lo hi) : TimesIn st' lo hi := by
  refine ⟨?_, ?_, ?_, ?_⟩
  · rw [h1]; exact h.1
  · rw [h2]; exact h.2.1
  · rw [h3]; exact h.2.2.1
  · rw [h4]; exact h.2.2.2

theorem step_timesIn (cfg : Option OpenTelemetryConfig) (t lo hi : Int) (op : Op)
    (s s' : OpenTelemetry × World) (h : step cfg t op s = some s')
    (ht : lo ≤ t ∧ t ≤ hi) (hinv : TimesIn s.1 lo hi) : TimesIn s'.1 lo hi := by
  cases op with
  | prepare_request =>
    simp only [step, Option.some.injEq] at h
    exact timesIn_of_eq (by rw [← h]; rfl) (by rw [← h]; rfl) (by rw [← h]; rfl)
      (by rw [← h]; rfl) hinv
  | parse_start =>
    simp only [step, Option.some.injEq] at h
    rcases hr : s.1.traces.root with _ | r
    · rw [← h]
      exact timesIn_of_eq (by simp [parse_start, hr]) (by simp [parse_start, hr])
        (by simp [parse_start, hr]) (by simp [parse_start, hr]) hinv
    · rw [← h]
      refine ⟨?_, ?_, ?_, ?_⟩
      · simpa [parse_start, hr] using ht
      · simpa [parse_start, hr] using hinv.2.1
      · intro p hp
        simp only [parse_start, hr] at hp
        exact hinv.2.2.1 p hp
      · intro r2 hr2
        simp only [parse_start, hr] at hr2
        exact hinv.2.2.2 r2 hr2
  | parse_end =>
    simp only [step, Option.some.injEq] at h
    rcases hr : s.1.traces.parse with _ | r
    all_goals
      rw [← h]
      exact timesIn_of_eq (by simp [parse_end, hr]) (by simp [parse_end, hr])
        (by simp [parse_end, hr]) (by simp [parse_end, hr]) hinv
  | validation_start =>
    simp only [step, Option.some.injEq] at h
    rcases hr : s.1.traces.root with _ | r
    all_goals
      rw [← h]
      exact timesIn_of_eq (by simp [validation_start, hr])
        (by simp [validation_start, hr]) (by simp [validation_start, hr])
        (by simp [validation_start, hr]) hinv
  | validation_end =>
    simp only [step, Option.some.injEq] at h
    rcases hr : s.1.traces.validation with _ | r
    all_goals
      rw [← h]
      exact timesIn_of_eq (by simp [validation_end, hr])
        (by simp [validation_end, hr]) (by simp [validation_end, hr])
        (by simp [validation_end, hr]) hinv
  | execution_start =>
    simp only [step, Option.some.injEq] at h
    exact timesIn_of_eq (by rw [← h]; rfl) (by rw [← h]; rfl) (by rw [← h]; rfl)
      (by rw [← h]; rfl) hinv
  | execution_end =>
    simp only [step, Option.some.injEq] at h
    rw [← h]
    refine ⟨?_, ?_, ?_, ?_⟩
    · simpa [execution_end] using hinv.1
    · simpa [execution_end] using ht
    · intro p hp
      simp only [execution_end] at hp
      exact hinv.2.2.1 p hp
    · intro r2 hr2
      simp only [execution_end] at hr2
      exact hinv.2.2.2 r2 hr2
  | resolve_start info =>
    simp only [step, Option.some.injEq] at h
    rcases hc : parentSpanChoice s.1 info with _ | ps
    · rw [← h]
      exact timesIn_of_eq (by simp [resolve_start, hc]) (by simp [resolve_start, hc])
        (by simp [resolve_start, hc]) (by simp [resolve_start, hc]) hinv
    · rw [← h]
      refine ⟨?_, ?_, ?_, ?_⟩
      · simpa [resolve_start, hc] using hinv.1
      · simpa [resolve_start, hc] using hinv.2.1
      · intro p hp
        simp only [resolve_start, hc] at hp
        rcases mem_btreeInsert _ _ _ hp with hnew | hold
        · rw [hnew]
          exact ht
        · exact hinv.2.2.1 p hold
      · intro r2 hr2
        simp only [resolve_start, hc] at hr2
        exact hinv.2.2.2 r2 hr2
  | resolve_end rid =>
    simp only [step] at h
    rcases hget : btreeGet rid s.1.fields with _ | td
    · simp only [resolve_end, hget, Option.some.injEq] at h
      exact timesIn_of_eq (by rw [← h]) (by rw [← h]) (by rw [← h])
        (by rw [← h]) hinv
    · rcases hnn : numNanoseconds (td.metrics.start_time - s.1.metrics.start_time)
        with _ | so
      · simp only [resolve_end, hget, hnn] at h
        exact Option.noConfusion h
      · simp only [resolve_end, hget, hnn, Option.some.injEq] at h
        rw [← h]
        refine ⟨hinv.1, hinv.2.1, ?_, ?_⟩
        · intro p hp
          exact hinv.2.2.1 p (mem_btreeRemove rid _ hp)
        · intro r2 hr2
          simp only [List.mem_append, List.mem_singleton] at hr2
          rcases hr2 with hr2 | hr2
          · exact hinv.2.2.2 r2 hr2
          · rw [hr2]
            exact ⟨hinv.2.2.1 (rid, td) (mem_of_btreeGet hget), ht⟩
  | error =>
    simp only [step, Option.some.injEq] at h
    rw [← h]
    refine ⟨hinv.1, hinv.2.1, ?_, ?_⟩
    · intro p hp
      simp only [error] at hp
      exact absurd hp (List.not_mem_nil p)
    · intro r2 hr2
      simp only [error] at hr2
      exact hinv.2.2.2 r2 hr2

theorem run_timesIn (cfg : Option OpenTelemetryConfig) :
    ∀ (evs : List (Int × Op)) (lo hi : Int) (s s' : OpenTelemetry × World),
    (∀ t ∈ evs.map Prod.fst, lo ≤ t ∧ t ≤ hi) →
    TimesIn s.1 lo hi → run cfg evs s = some s' → TimesIn s'.1 lo hi := by
  intro evs
  induction evs with
  | nil =>
    intro lo hi s s' _ hinv h
    simp only [run, Option.some.injEq] at h
    rw [← h]
    exact hinv
  | cons e rest ih =>
    intro lo hi s s' hb hinv h
    rcases hstep : step cfg e.1 e.2 s with _ | s1
    · rw [run, hstep] at h
      exact Option.noConfusion h
    · rw [run, hstep] at h
      have ht : lo ≤ e.1 ∧ e.1 ≤ hi := hb e.1 (by simp)
      have hinv1 := step_timesIn cfg e.1 lo hi e.2 s s1 hstep ht hinv
      exact ih lo hi s1 s' (fun t htm => hb t (by simp [htm])) hinv1 h

theorem numNanoseconds_eq_some {x d : Int} (h : numNanoseconds x = some d) :
    d = x := by
  unfold numNanoseconds at h
  split at h
  · exact (Option.some.injEq _ _ ▸ h).symm
  · exact Option.noConfusion h

theorem numNanoseconds_of_bounds {x : Int} (h1 : -(2 ^ 63) ≤ x)
    (h2 : x ≤ 2 ^ 63 - 1) : numNanoseconds x = some x := by
  unfold numNanoseconds
  exact if_pos ⟨h1, h2⟩

/-- Shared characterization: when `result` emits a payload, the payload
is the versioned Apollo-tracing object built over the sorted resolves. -/
theorem result_payload_eq (st : OpenTelemetry) (w : World)
    (cfg : Option OpenTelemetryConfig) (v : Json) (st1 : OpenTelemetry)
    (w1 : World) (h : result st w cfg = some (some v, st1, w1)) :
    ∃ d, numNanoseconds (st.metrics.end_time - st.metrics.start_time) = some d ∧
      v = Json.obj
        [("version", Json.num 1),
         ("startTime", Json.str (toRfc3339 st.metrics.start_time)),
         ("endTime", Json.str (toRfc3339 st.metrics.end_time)),
         ("duration", Json.num d),
         ("execution", Json.obj [("resolvers",
           Json.arr ((List.insertionSort statLE st.metrics.resolves).map
             serializeResolveStat))])] := by
  rcases hnn : numNanoseconds (st.metrics.end_time - st.metrics.start_time)
    with _ | d
  · simp only [result, hnn] at h
    exact Option.noConfusion h
  · refine ⟨d, rfl, ?_⟩
    rcases cfg with _ | c
    · simp only [result, hnn, Option.some.injEq, Prod.mk.injEq] at h
      rw [← h.1]
    · simp only [result, hnn] at h
      by_cases hb : c.return_tracing_data_to_client = true
      · rw [if_pos hb] at h
        simp only [Option.some.injEq, Prod.mk.injEq] at h
        rw [← h.1]
      · rw [if_neg hb] at h
        simp only [Option.some.injEq, Prod.mk.injEq] at h
        exact absurd h.1 (by simp)

/-! ### C4 -/

/-- C4: for a request that completes normally with payload emission
enabled (under physically meaningful timestamps, `0 <= t <= 2^62` ns),
the emitted value has exactly the shape `version`/`startTime`/`endTime`/
`duration`/`execution.resolvers`, with `duration` the integer nanosecond
difference `endTime - startTime`, and every resolver entry carries
`path`, `fieldName`, `parentType`, `returnType`, `startOffset` and
`duration` (integers, not null). -/
theorem result_payload_shape (cfg cfg2 : Option OpenTelemetryConfig)
    (evs : List (Int × Op)) (t1 t2 : Int) (st : OpenTelemetry) (w : World)
    (v : Json) (st1 : OpenTelemetry) (w1 : World)
    (hb1 : 0 ≤ t1 ∧ t1 ≤ 2 ^ 62) (hb2 : 0 ≤ t2 ∧ t2 ≤ 2 ^ 62)
    (hbs : ∀ t ∈ evs.map Prod.fst, 0 ≤ t ∧ t ≤ 2 ^ 62)
    (hrun : run cfg evs (create t1 t2, World.start) = some (st, w))
    (hres : result st w cfg2 = some (some v, st1, w1)) :
    v = Json.obj
      [("version", Json.num 1),
       ("startTime", Json.str (toRfc3339 st.metrics.start_time)),
       ("endTime", Json.str (toRfc3339 st.metrics.end_time)),
       ("duration", Json.num (st.metrics.end_time - st.metrics.start_time)),
       ("execution", Json.obj [("resolvers",
         Json.arr ((List.insertionSort statLE st.metrics.resolves).map
           serializeResolveStat))])] ∧
    ∀ j ∈ (List.insertionSort statLE st.metrics.resolves).map
      serializeResolveStat, EntryShape j := by
  have hinv0 : TimesIn (create t1 t2) 0 (2 ^ 62) := by
    refine ⟨hb1, hb2, ?_, ?_⟩
    · intro p hp
      exact absurd hp (List.not_mem_nil p)
    · intro r hr
      exact absurd hr (List.not_mem_nil r)
  have hinv := run_timesIn cfg evs 0 (2 ^ 62) (create t1 t2, World.start)
    (st, w) hbs hinv0 hrun
  obtain ⟨d, hnn, hv⟩ := result_payload_eq st w cfg2 v st1 w1 hres
  have hd : d = st.metrics.end_time - st.metrics.start_time :=
    numNanoseconds_eq_some hnn
  constructor
  · rw [hv, hd]
  · intro j hj
    simp only [List.mem_map] at hj
    obtain ⟨r, hr, hjr⟩ := hj
    have hmem : r ∈ st.metrics.resolves :=
      (List.perm_insertionSort statLE st.metrics.resolves).mem_iff.mp hr
    have hb := hinv.2.2.2 r hmem
    have h62 : ((2 : Int) ^ 62) ≤ 2 ^ 63 - 1 := by norm_num
    have h62n : -((2 : Int) ^ 63) ≤ -(2 ^ 62) := by norm_num
    have hfits : numNanoseconds (r.end_time - r.pending_resolve.start_time) =
        some (r.end_time - r.pending_resolve.start_time) := by
      apply numNanoseconds_of_bounds
      · linarith [hb.1.2, hb.2.1]
      · linarith [hb.1.1, hb.2.2]
    rw [← hjr]
    exact ⟨r.pending_resolve.path, r.pending_resolve.field_name,
      r.pending_resolve.parent_type, r.pending_resolve.return_type,
      r.start_offset, r.end_time - r.pending_resolve.start_time,
      by simp only [serializeResolveStat, hfits]⟩

/-- Witness for C4 at the example request. -/
theorem result_payload_shape_witness :
    (∀ t ∈ exEvs.map Prod.fst, (0 : Int) ≤ t ∧ t ≤ 2 ^ 62) ∧
    ((exRes.1.getD Json.null) = Json.obj
      [("version", Json.num 1),
       ("startTime", Json.str (toRfc3339 exS.1.metrics.start_time)),
       ("endTime", Json.str (toRfc3339 exS.1.metrics.end_time)),
       ("duration",
        Json.num (exS.1.metrics.end_time - exS.1.metrics.start_time)),
       ("execution", Json.obj [("resolvers",
         Json.arr ((List.insertionSort statLE exS.1.metrics.resolves).map
           serializeResolveStat))])] ∧
     ∀ j ∈ (List.insertionSort statLE exS.1.metrics.resolves).map
       serializeResolveStat, EntryShape j) :=
  ⟨by decide,
   result_payload_shape none none exEvs 0 0 exS.1 exS.2
     (exRes.1.getD Json.null) exRes.2.1 exRes.2.2
     (by norm_num) (by norm_num) (by decide) rfl rfl⟩

/-! ### C10 -/

theorem step_end_time_preserved (cfg : Option OpenTelemetryConfig) (t : Int)
    (op : Op) (s s' : OpenTelemetry × World) (hop : op ≠ Op.execution_end)
    (h : step cfg t op s = some s') :
    s'.1.metrics.end_time = s.1.metrics.end_time := by
  cases op with
  | prepare_request =>
    simp only [step, Option.some.injEq] at h
    rw [← h]
    rfl
  | parse_start =>
    simp only [step, Option.some.injEq] at h
    rcases hr : s.1.traces.root with _ | r
    all_goals
      rw [← h]
      simp [parse_start, hr]
  | parse_end =>
    simp only [step, Option.some.injEq] at h
    rcases hr : s.1.traces.parse with _ | r
    all_goals
      rw [← h]
      simp [parse_end, hr]
  | validation_start =>
    simp only [step, Option.some.injEq] at h
    rcases hr : s.1.traces.root with _ | r
    all_goals
      rw [← h]
      simp [validation_start, hr]
  | validation_end =>
    simp only [step, Option.some.injEq] at h
    rcases hr : s.1.traces.validation with _ | r
    all_goals
      rw [← h]
      simp [validation_end, hr]
  | execution_start =>
    simp only [step, Option.some.injEq] at h
    rw [← h]
    rfl
  | execution_end => exact absurd rfl hop
  | resolve_start info =>
    simp only [step, Option.some.injEq] at h
    rcases hc : parentSpanChoice s.1 info with _ | ps
    all_goals
      rw [← h]
      simp [resolve_start, hc]
  | resolve_end rid =>
    simp only [step] at h
    rcases hget : btreeGet rid s.1.fields with _ | td
    · simp only [resolve_end, hget, Option.some.injEq] at h
      rw [← h]
    · rcases hnn : numNanoseconds (td.metrics.start_time - s.1.metrics.start_time)
        with _ | so
      · simp only [resolve_end, hget, hnn] at h
        exact Option.noConfusion h
      · simp only [resolve_end, hget, hnn, Option.some.injEq] at h
        rw [← h]
  | error =>
    simp only [step, Option.some.injEq] at h
    rw [← h]
    rfl

theorem run_end_time_preserved (cfg : Option OpenTelemetryConfig) :
    ∀ (evs : List (Int × Op)) (s s' : OpenTelemetry × World),
    Op.execution_end ∉ evs.map Prod.snd → run cfg evs s = some s' →
    s'.1.metrics.end_time = s.1.metrics.end_time := by
  intro evs
  induction evs with
  | nil =>
    intro s s' _ h
    simp only [run, Option.some.injEq] at h
    rw [← h]
  | cons e rest ih =>
    intro s s' hno h
    rcases hstep : step cfg e.1 e.2 s with _ | s1
    · rw [run, hstep] at h
      exact Option.noConfusion h
    · rw [run, hstep] at h
      simp only [List.map_cons, List.mem_cons, not_or] at hno
      have h1 := step_end_time_preserved cfg e.1 e.2 s s1
        (fun hc => hno.1 hc.symm) hstep
      rw [ih s1 s' hno.2 h, h1]

/-- C10: when `execution_end` never fires, `metrics.end_time` keeps the
value sampled at extension creation, so `result` does not panic as long
as that creation time minus the `parse_start`-captured start time fits a
signed 64-bit nanosecond count, and the emitted `duration` equals
exactly that (possibly negative) difference rather than any actual
request duration. -/
theorem result_without_execution_end (cfg cfg2 : Option OpenTelemetryConfig)
    (evs : List (Int × Op)) (t1 t2 : Int) (st : OpenTelemetry) (w : World)
    (hno : Op.execution_end ∉ evs.map Prod.snd)
    (hrun : run cfg evs (create t1 t2, World.start) = some (st, w))
    (hfit : -(2 ^ 63) ≤ t2 - st.metrics.start_time ∧
      t2 - st.metrics.start_time ≤ 2 ^ 63 - 1) :
    st.metrics.end_time = t2 ∧
    (result st w cfg2).isSome = true ∧
    ∀ pl st1 w1, result st w cfg2 = some (pl, st1, w1) →
      ∀ v, pl = some v →
        Json.getField v "duration" =
          some (Json.num (t2 - st.metrics.start_time)) := by
  have hend : st.metrics.end_time = t2 :=
    run_end_time_preserved cfg evs (create t1 t2, World.start) (st, w) hno hrun
  have hnn : numNanoseconds (st.metrics.end_time - st.metrics.start_time) =
      some (t2 - st.metrics.start_time) := by
    rw [hend]
    exact numNanoseconds_of_bounds hfit.1 hfit.2
  refine ⟨hend, ?_, ?_⟩
  · rcases cfg2 with _ | c
    · simp only [result, hnn, Option.isSome_some]
    · by_cases hb : c.return_tracing_data_to_client = true
      · simp only [result, hnn, if_pos hb, Option.isSome_some]
      · simp only [result, hnn, if_neg hb, Option.isSome_some]
  · intro pl st1 w1 hres v hv
    rw [hv] at hres
    obtain ⟨d, hnn2, hveq⟩ := result_payload_eq st w cfg2 v st1 w1 hres
    have hd : d = t2 - st.metrics.start_time := by
      rw [hnn] at hnn2
      exact (Option.some.injEq _ _ ▸ hnn2).symm
    rw [hveq, hd]
    rfl

theorem result_without_execution_end_witness :
    c10s.1.metrics.start_time = 5 ∧
    c10s.1.metrics.end_time = 0 ∧
    (result c10s.1 c10s.2 none).isSome = true ∧
    ∀ pl st1 w1, result c10s.1 c10s.2 none = some (pl, st1, w1) →
      ∀ v, pl = some v →
        Json.getField v "duration" = some (Json.num (-5)) := by
  have h := result_without_execution_end none none
    [(0, Op.prepare_request), (5, Op.parse_start)] 0 0 c10s.1 c10s.2
    (by decide) rfl (by decide)
  exact ⟨by decide, h.1, h.2.1, h.2.2⟩

end AGOtel
